import Mathlib

/-!
# ipserver: the cached public address and its HTTP front-end

A shallow embedding of `main.go`.  The package-level variable `currentIP` is the
whole mutable state.  Every access to it happens inside one critical section of
`mutex` (`Lock`/`Unlock` in `refreshIP`, `RLock`/`RUnlock` in `ipHandler`), so each
critical section is one atomic step of the model: a run of the process is a
sequence of events, each either one iteration of the `refreshIP` loop or one
request served by `ipHandler`.

Go strings and byte slices are finite byte sequences; a byte is a natural number
below 256.  The parts of the Go standard library the program calls (`http.Error`,
`json.Encoder.Encode`, `utf8.DecodeRuneInString`) are embedded after their Go
sources.
-/

namespace IPServer

/-! ## Go values -/

/-- A Go `string` (or `[]byte`): a sequence of bytes, each a natural number below 256. -/
abbrev GoString := List Nat

/-- The bytes of an ASCII string constant of the program. -/
def ascii (s : String) : GoString := s.data.map Char.toNat

/-- A Go `error` value, identified by its message. -/
structure GoError where
  msg : String
  deriving DecidableEq, Repr

/-! ## The upstream probe -/

/-- What the network does to one call of `getPublicIP`: `http.Get` fails, or it
yields a response with some status code whose body `ioutil.ReadAll` either fails
to read or reads completely. -/
inductive Upstream where
  | getError (err : GoError)
  | readError (statusCode : Nat) (err : GoError)
  | body (statusCode : Nat) (b : GoString)
  deriving DecidableEq, Repr

/-- `getPublicIP` of `main.go`: the Go result pair `(string, error)`, with `none`
for a nil error.  The status code is never inspected and the body is converted
with `string(body)`, nothing else. -/
def getPublicIP : Upstream → GoString × Option GoError
  | .getError err => ([], some err)
  | .readError _ err => ([], some err)
  | .body _ b => (b, none)

/-! ## The cache and the refresh loop -/

/-- The shared mutable state of the process: the package-level `currentIP`. -/
structure State where
  currentIP : GoString
  deriving DecidableEq, Repr

/-- The state at process start: `currentIP` has the zero value `""`. -/
def State.init : State := { currentIP := [] }

/-- One iteration of the `for` loop of `refreshIP`, given what the upstream does.
On an error the iteration logs, sleeps and continues; otherwise it assigns
`currentIP = ip` under the write lock. -/
def refreshIP (st : State) (u : Upstream) : State :=
  match getPublicIP u with
  | (_, some _) => st
  | (ip, none) => { st with currentIP := ip }

/-! ## `unicode/utf8` -/

/-- `utf8.RuneError`, the replacement character U+FFFD. -/
def RuneError : Nat := 0xFFFD

/-- `utf8.RuneSelf`: bytes below it are single-byte runes. -/
def RuneSelf : Nat := 0x80

/-- `utf8.UTFMax`: the longest encoding of a rune, in bytes. -/
def UTFMax : Nat := 4

/-- The `first` table of `unicode/utf8` for a leading byte `s0 ≥ RuneSelf`:
`none` for an invalid leading byte (`xx`), otherwise the size of the sequence and
the accepted range `[lo, hi]` of its second byte. -/
def first (s0 : Nat) : Option (Nat × Nat × Nat) :=
  if s0 < 0xC2 then none
  else if s0 < 0xE0 then some (2, 0x80, 0xBF)
  else if s0 = 0xE0 then some (3, 0xA0, 0xBF)
  else if s0 < 0xED then some (3, 0x80, 0xBF)
  else if s0 = 0xED then some (3, 0x80, 0x9F)
  else if s0 < 0xF0 then some (3, 0x80, 0xBF)
  else if s0 = 0xF0 then some (4, 0x90, 0xBF)
  else if s0 < 0xF4 then some (4, 0x80, 0xBF)
  else if s0 = 0xF4 then some (4, 0x80, 0x8F)
  else none

/-- A continuation byte lies in `[locb, hicb]`, that is `[0x80, 0xBF]`. -/
def isCont (b : Nat) : Bool := 0x80 ≤ b && b ≤ 0xBF

/-- `utf8.DecodeRuneInString`: the first rune of `s` and its width in bytes;
`(RuneError, 0)` for the empty string and `(RuneError, 1)` for an invalid
encoding.  The masks `s0 & mask2`, `& mask3`, `& mask4`, `& maskx` are written as
remainders and the shifts as multiplications. -/
def DecodeRuneInString (s : GoString) : Nat × Nat :=
  match s with
  | [] => (RuneError, 0)
  | s0 :: t =>
    if s0 < RuneSelf then (s0, 1)
    else
      match first s0 with
      | none => (RuneError, 1)
      | some (sz, lo, hi) =>
        if s.length < sz then (RuneError, 1)
        else
          match t with
          | [] => (RuneError, 1)
          | s1 :: t1 =>
            if s1 < lo ∨ hi < s1 then (RuneError, 1)
            else if sz ≤ 2 then ((s0 % 0x20) * 0x40 + s1 % 0x40, 2)
            else
              match t1 with
              | [] => (RuneError, 1)
              | s2 :: t2 =>
                if !isCont s2 then (RuneError, 1)
                else if sz ≤ 3 then
                  ((s0 % 0x10) * 0x1000 + (s1 % 0x40) * 0x40 + s2 % 0x40, 3)
                else
                  match t2 with
                  | [] => (RuneError, 1)
                  | s3 :: _ =>
                    if !isCont s3 then (RuneError, 1)
                    else
                      ((s0 % 0x08) * 0x40000 + (s1 % 0x40) * 0x1000
                        + (s2 % 0x40) * 0x40 + s3 % 0x40, 4)

/-! ## `encoding/json`: what `json.NewEncoder(w).Encode(response)` writes -/

/-- The digits `hex` of `encoding/json`: `"0123456789abcdef"`. -/
def hex (n : Nat) : Nat := if n < 10 then 0x30 + n else 0x61 + (n - 10)

/-- The table `htmlSafeSet` of `encoding/json`: the ASCII bytes that a JSON string
holds unescaped when HTML escaping is on (the default of an `Encoder`): those
from the space `0x20` to DEL `0x7F` other than the double quote, the backslash,
`<`, `>` and `&`. -/
def htmlSafeSet (b : Nat) : Bool :=
  0x20 ≤ b && b < RuneSelf && b != 0x22 && b != 0x5C && b != 0x3C && b != 0x3E && b != 0x26

/-- What `appendString` writes for one ASCII byte outside `htmlSafeSet`: a short
escape for the quote, the backslash and (since Go 1.22 also for `\b` and `\f`)
the usual control characters, `\u00XX` for the other control characters and for
`<`, `>` and `&`. -/
def escapeByte (b : Nat) : GoString :=
  if b = 0x5C ∨ b = 0x22 then [0x5C, b]
  else if b = 0x08 then [0x5C, 0x62]
  else if b = 0x0C then [0x5C, 0x66]
  else if b = 0x0A then [0x5C, 0x6E]
  else if b = 0x0D then [0x5C, 0x72]
  else if b = 0x09 then [0x5C, 0x74]
  else [0x5C, 0x75, 0x30, 0x30, hex (b / 16), hex (b % 16)]

/-- The replacement character U+FFFD in UTF-8, the Go string `"\ufffd"`: what the
encoder writes in place of a byte that is not valid UTF-8. -/
def replacementBytes : GoString := [0xEF, 0xBF, 0xBD]

/-- The loop of the string encoder of `encoding/json` (with HTML escaping on)
over the bytes of `src` that are still to be encoded; `fuel` bounds the number
of iterations, and every iteration consumes at least one byte.  The output is
what the loop has appended to `dst` between the two quotes once it is done:
runs that need no escape are copied as they are, an ASCII byte outside
`htmlSafeSet` and the runes U+2028 and U+2029 are replaced by their escapes,
and a byte that is not valid UTF-8 is replaced by the bytes of U+FFFD.
(The encoder of earlier Go releases wrote the six characters of the escape
for U+FFFD in that last case; it reads back as the same rune.) -/
def appendStringLoop : Nat → GoString → GoString
  | 0, _ => []
  | _, [] => []
  | fuel + 1, b :: rest =>
    if b < RuneSelf then
      if htmlSafeSet b then b :: appendStringLoop fuel rest
      else escapeByte b ++ appendStringLoop fuel rest
    else
      let src := b :: rest
      let (c, size) := DecodeRuneInString (src.take UTFMax)
      if c = RuneError ∧ size = 1 then
        replacementBytes ++ appendStringLoop fuel rest
      else if c = 0x2028 ∨ c = 0x2029 then
        ascii "\\u202" ++ [hex (c % 16)] ++ appendStringLoop fuel (src.drop size)
      else
        src.take size ++ appendStringLoop fuel (src.drop size)

/-- The string encoder of `encoding/json` on an empty `dst`, with HTML escaping
on: the JSON string literal for `src`. -/
def appendString (src : GoString) : GoString :=
  [0x22] ++ appendStringLoop src.length src ++ [0x22]

/-- `IPResponse` of `main.go`: one field `IP`, with the tag `json:"ip"`. -/
structure IPResponse where
  IP : GoString
  deriving DecidableEq, Repr

/-- `json.Marshal` of an `IPResponse`: an object with the single member `ip`. -/
def marshalIPResponse (v : IPResponse) : GoString :=
  ascii "\x7b\"ip\":" ++ appendString v.IP ++ ascii "\x7d"

/-! ## `net/http`: the response a handler produces -/

/-- What a handler has written to its `http.ResponseWriter`: the status code,
the header fields in the order they were set, and the body bytes. -/
structure Response where
  status : Nat
  header : List (String × String)
  body : GoString
  deriving DecidableEq, Repr

/-- `Header.Get`: the value of the first field named `key`, `""` when absent. -/
def Response.headerGet (w : Response) (key : String) : String :=
  match w.header.find? (fun kv => kv.1 == key) with
  | some kv => kv.2
  | none => ""

/-- `http.StatusServiceUnavailable`. -/
def StatusServiceUnavailable : Nat := 503

/-- `http.StatusOK`. -/
def StatusOK : Nat := 200

/-- `http.Error(w, error, code)` on a fresh writer: it sets `Content-Type` and
`X-Content-Type-Options`, writes the status code, and prints the message with
`fmt.Fprintln`, which ends the line with a newline. -/
def httpError (error : GoString) (code : Nat) : Response :=
  { status := code
    header := [("Content-Type", "text/plain; charset=utf-8"),
               ("X-Content-Type-Options", "nosniff")]
    body := error ++ [0x0A] }

/-- `json.NewEncoder(w).Encode(v)` on a writer whose header fields are `header`
and to which nothing has been written: the JSON encoding of `v` followed by a
newline character; the first `Write` sends the status `200 OK`. -/
def encoderEncode (header : List (String × String)) (v : IPResponse) : Response :=
  { status := StatusOK
    header := header
    body := marshalIPResponse v ++ [0x0A] }

/-- An incoming request, as far as a handler could tell requests apart. -/
structure Request where
  method : String
  path : String
  deriving DecidableEq, Repr

/-- The message of the cold-start response. -/
def notYetAvailable : GoString :=
  ascii "Public IP not yet available. Please try again later."

/-- `ipHandler` of `main.go`: it reads `currentIP` under the read lock; for `""`
it replies with `http.Error`, otherwise it sets `Content-Type` and encodes an
`IPResponse`.  It never looks at the request. -/
def ipHandler (st : State) (_r : Request) : Response :=
  let ip := st.currentIP
  if ip = [] then
    httpError notYetAvailable StatusServiceUnavailable
  else
    let response : IPResponse := { IP := ip }
    encoderEncode [("Content-Type", "application/json")] response

/-! ## Runs of the process -/

/-- One atomic step of the process: an iteration of `refreshIP` with the given
upstream behaviour, or a request served by `ipHandler`. -/
inductive Event where
  | probe (u : Upstream)
  | request (r : Request)
  deriving DecidableEq, Repr

/-- The step function: the next state and, for a request, the response sent. -/
def step (st : State) : Event → State × Option Response
  | .probe u => (refreshIP st u, none)
  | .request r => (st, some (ipHandler st r))

/-- The state after a sequence of events. -/
def runState (st : State) : List Event → State
  | [] => st
  | e :: es => runState (step st e).1 es

/-- The responses sent during a sequence of events, in order. -/
def responses (st : State) : List Event → List Response
  | [] => []
  | e :: es =>
    match (step st e).2 with
    | some w => w :: responses (step st e).1 es
    | none => responses (step st e).1 es

/-- An event is a successful probe when `getPublicIP` returns a nil error. -/
def Event.isProbeSuccess : Event → Bool
  | .probe u => (getPublicIP u).2.isNone
  | .request _ => false

/-- An event is a successful probe with an empty body. -/
def Event.isEmptyProbeSuccess : Event → Bool
  | .probe u => (getPublicIP u).2.isNone && (getPublicIP u).1 == []
  | .request _ => false

/-! ## Reading a response body as JSON

The reader's side of the wire format, after RFC 8259: the grammar of a JSON
object whose member values are strings, which is all a client needs to read an
`IPResponse`.  Strings are read to their UTF-8 bytes. -/

/-- JSON whitespace: space, horizontal tab, line feed, carriage return. -/
def isWs (b : Nat) : Bool := b == 0x20 || b == 0x09 || b == 0x0A || b == 0x0D

/-- Drops leading whitespace. -/
def skipWs : GoString → GoString
  | [] => []
  | b :: rest => if isWs b then skipWs rest else b :: rest

/-- The value of a hexadecimal digit, in either case. -/
def hexVal (b : Nat) : Option Nat :=
  if 0x30 ≤ b ∧ b ≤ 0x39 then some (b - 0x30)
  else if 0x61 ≤ b ∧ b ≤ 0x66 then some (b - 0x61 + 10)
  else if 0x41 ≤ b ∧ b ≤ 0x46 then some (b - 0x41 + 10)
  else none

/-- The UTF-16 code unit written by the four hexadecimal digits of a `\u` escape. -/
def hex4 (a b c d : Nat) : Option Nat :=
  match hexVal a, hexVal b, hexVal c, hexVal d with
  | some a, some b, some c, some d => some (((a * 16 + b) * 16 + c) * 16 + d)
  | _, _, _, _ => none

/-- The UTF-8 encoding of a code point below `0x110000`. -/
def encodeRune (c : Nat) : GoString :=
  if c < 0x80 then [c]
  else if c < 0x800 then [0xC0 + c / 0x40, 0x80 + c % 0x40]
  else if c < 0x10000 then [0xE0 + c / 0x1000, 0x80 + c / 0x40 % 0x40, 0x80 + c % 0x40]
  else [0xF0 + c / 0x40000, 0x80 + c / 0x1000 % 0x40, 0x80 + c / 0x40 % 0x40, 0x80 + c % 0x40]

/-- Puts `bs` in front of the string read so far. -/
def prepend (bs : GoString) (r : Option (GoString × GoString)) : Option (GoString × GoString) :=
  r.map (fun p => (bs ++ p.1, p.2))

/-- The character a two-character escape stands for. -/
def simpleEscape (e : Nat) : Option Nat :=
  if e = 0x22 ∨ e = 0x5C ∨ e = 0x2F then some e
  else if e = 0x62 then some 0x08
  else if e = 0x66 then some 0x0C
  else if e = 0x6E then some 0x0A
  else if e = 0x72 then some 0x0D
  else if e = 0x74 then some 0x09
  else none

/-- Reads the escaped low surrogate `\uXXXX` that may follow a high surrogate:
its code unit and the input after it. -/
def readLowSurrogate : GoString → Option (Nat × GoString)
  | b1 :: b2 :: l1 :: l2 :: l3 :: l4 :: rest =>
    if b1 = 0x5C ∧ b2 = 0x75 then
      match hex4 l1 l2 l3 l4 with
      | some lo => if 0xDC00 ≤ lo ∧ lo < 0xE000 then some (lo, rest) else none
      | none => none
    else none
  | _ => none

/-- Reads what follows `\u`: four hexadecimal digits for a UTF-16 code unit.  A
high surrogate followed by an escaped low surrogate denotes one code point; a
surrogate on its own reads as U+FFFD.  The result is the UTF-8 bytes denoted and
the input after the escape. -/
def readUnicodeEscape : GoString → Option (GoString × GoString)
  | h1 :: h2 :: h3 :: h4 :: rest =>
    match hex4 h1 h2 h3 h4 with
    | none => none
    | some u =>
      if u < 0xD800 ∨ 0xE000 ≤ u then some (encodeRune u, rest)
      else if 0xDC00 ≤ u then some (encodeRune 0xFFFD, rest)
      else
        match readLowSurrogate rest with
        | some (lo, rest1) =>
          some (encodeRune (0x10000 + (u - 0xD800) * 0x400 + (lo - 0xDC00)), rest1)
        | none => some (encodeRune 0xFFFD, rest)
  | _ => none

/-- Reads an escape after its backslash: the bytes denoted and the input after
the escape. -/
def readEscape : GoString → Option (GoString × GoString)
  | [] => none
  | e :: rest =>
    if e = 0x75 then readUnicodeEscape rest
    else
      match simpleEscape e with
      | some b => some ([b], rest)
      | none => none

/-- Reads a JSON string after its opening quote: the bytes it denotes and the
input after its closing quote.  Control characters must be escaped.  `fuel`
bounds the number of characters and escapes read. -/
def parseStringLoop : Nat → GoString → Option (GoString × GoString)
  | 0, _ => none
  | _ + 1, [] => none
  | fuel + 1, c :: rest =>
    if c = 0x22 then some ([], rest)
    else if c = 0x5C then
      match readEscape rest with
      | none => none
      | some (bs, rest1) => prepend bs (parseStringLoop fuel rest1)
    else if c < 0x20 then none
    else prepend [c] (parseStringLoop fuel rest)

/-- Reads a JSON string after its opening quote; every character or escape read
consumes at least one byte of the input, whose length is therefore fuel enough. -/
def parseStringBody (input : GoString) : Option (GoString × GoString) :=
  parseStringLoop input.length input

/-- Skips whitespace and then reads the one byte `b`. -/
def expect (b : Nat) (input : GoString) : Option GoString :=
  match skipWs input with
  | [] => none
  | c :: rest => if c = b then some rest else none

/-- Reads one member `"key" : "value"` of an object. -/
def parseMember (input : GoString) : Option ((GoString × GoString) × GoString) :=
  match expect 0x22 input with
  | none => none
  | some rest =>
    match parseStringBody rest with
    | none => none
    | some (key, rest1) =>
      match expect 0x3A rest1 with
      | none => none
      | some rest2 =>
        match expect 0x22 rest2 with
        | none => none
        | some rest3 =>
          match parseStringBody rest3 with
          | none => none
          | some (val, rest4) => some ((key, val), rest4)

/-- Reads the members of a non-empty object after its opening brace, up to and
including the closing brace; `fuel` bounds the number of members. -/
def parseMembers : Nat → GoString → Option (List (GoString × GoString) × GoString)
  | 0, _ => none
  | fuel + 1, input =>
    match parseMember input with
    | none => none
    | some (m, rest) =>
      match skipWs rest with
      | [] => none
      | c :: rest1 =>
        if c = 0x7D then some ([m], rest1)
        else if c = 0x2C then
          match parseMembers fuel rest1 with
          | some (ms, rest2) => some (m :: ms, rest2)
          | none => none
        else none

/-- Reads a whole document as a JSON object with string members: the members in
order, or `none` when the document is something else.  Whitespace may surround
every token, and nothing but whitespace may follow the closing brace. -/
def parseObject (input : GoString) : Option (List (GoString × GoString)) :=
  match expect 0x7B input with
  | none => none
  | some rest =>
    match expect 0x7D rest with
    | some rest1 => if skipWs rest1 = [] then some [] else none
    | none =>
      match parseMembers input.length rest with
      | some (ms, rest1) => if skipWs rest1 = [] then some ms else none
      | none => none

/-- Valid UTF-8, as `utf8.ValidString` decides it: the string splits into runes
none of which decodes to the error `(RuneError, 1)`.  `fuel` bounds the number of
runes. -/
def validStringLoop : Nat → GoString → Bool
  | _, [] => true
  | 0, _ :: _ => false
  | fuel + 1, b :: rest =>
    if b < RuneSelf then validStringLoop fuel rest
    else
      let src := b :: rest
      let (c, size) := DecodeRuneInString src
      if c = RuneError ∧ size = 1 then false
      else validStringLoop fuel (src.drop size)

/-- `utf8.ValidString`. -/
def ValidString (s : GoString) : Bool := validStringLoop s.length s

/-- The round trip at a given fuel of `appendStringLoop`: reading back what the
loop writes for a valid UTF-8 string `s`, closed by a quote, gives `s` and the
input after the quote. -/
def RoundTripAt (fuel : Nat) : Prop :=
  ∀ (s X : GoString) (k : Nat), validStringLoop fuel s = true →
    (appendStringLoop fuel s).length < k →
    parseStringLoop k (appendStringLoop fuel s ++ 0x22 :: X) = some (s, X)

/-! ## Lemmas: the cache under the events of a run -/

theorem refreshIP_of_error (st : State) (u : Upstream) (h : (getPublicIP u).2.isNone = false) :
    refreshIP st u = st := by
  cases u <;> simp_all [refreshIP, getPublicIP]

theorem refreshIP_body (st : State) (statusCode : Nat) (b : GoString) :
    refreshIP st (.body statusCode b) = { currentIP := b } := by
  simp [refreshIP, getPublicIP]

theorem step_of_not_success (st : State) (e : Event) (h : e.isProbeSuccess = false) :
    (step st e).1 = st := by
  cases e with
  | probe u => exact refreshIP_of_error st u h
  | request r => rfl

theorem runState_of_no_success (es : List Event) (st : State)
    (h : ∀ e ∈ es, e.isProbeSuccess = false) : runState st es = st := by
  induction es generalizing st with
  | nil => rfl
  | cons e es ih =>
    have he := step_of_not_success st e (h e (List.mem_cons_self e es))
    simp only [runState, he]
    exact ih st (fun e' he' => h e' (List.mem_cons_of_mem e he'))

/-- Every response of a run satisfies `Q` when the states of the run keep an
invariant `P` under which `ipHandler` answers with `Q`. -/
theorem responses_forall (P : State → Prop) (Q : Response → Prop) (es : List Event)
    (hstep : ∀ st e, e ∈ es → P st → P (step st e).1)
    (hQ : ∀ st r, P st → Q (ipHandler st r)) :
    ∀ st, P st → ∀ w ∈ responses st es, Q w := by
  induction es with
  | nil => intro st _ w hw; simp [responses] at hw
  | cons e es ih =>
    intro st hP w hw
    have hP1 : P (step st e).1 := hstep st e (List.mem_cons_self e es) hP
    have ih1 := ih (fun st1 e1 he1 => hstep st1 e1 (List.mem_cons_of_mem e he1)) _ hP1
    cases e with
    | probe u =>
      simp only [responses, step] at hw
      exact ih1 w hw
    | request r =>
      simp only [responses, step, List.mem_cons] at hw
      rcases hw with rfl | hw
      · exact hQ st r hP
      · exact ih1 w hw

theorem ipHandler_empty (r : Request) :
    ipHandler { currentIP := [] } r = httpError notYetAvailable StatusServiceUnavailable := by
  simp [ipHandler]

theorem ipHandler_nonempty (v : GoString) (hv : v ≠ []) (r : Request) :
    ipHandler { currentIP := v } r
      = encoderEncode [("Content-Type", "application/json")] { IP := v } := by
  simp [ipHandler, hv]

/-! ## Lemmas: decoding UTF-8 and the loop of `appendString` -/

theorem first_cases (b sz lo hi : Nat) (h : first b = some (sz, lo, hi)) :
    (sz = 2 ∧ 0xC2 ≤ b ∧ b < 0xE0 ∧ lo = 0x80 ∧ hi = 0xBF) ∨
    (sz = 3 ∧ 0xE0 ≤ b ∧ b < 0xF0 ∧ 0x80 ≤ lo ∧ hi ≤ 0xBF ∧
      (b = 0xE0 → lo = 0xA0) ∧ (b = 0xED → hi = 0x9F)) ∨
    (sz = 4 ∧ 0xF0 ≤ b ∧ b ≤ 0xF4 ∧ 0x80 ≤ lo ∧ hi ≤ 0xBF ∧
      (b = 0xF0 → lo = 0x90) ∧ (b = 0xF4 → hi = 0x8F)) := by
  unfold first at h
  split_ifs at h <;>
    simp only [Option.some.injEq, Prod.mk.injEq, reduceCtorEq] at h <;>
    omega

theorem isCont_iff (b : Nat) : isCont b = true ↔ 0x80 ≤ b ∧ b ≤ 0xBF := by
  simp [isCont]

/-- The three shapes of a multi-byte sequence that `DecodeRuneInString` accepts. -/
theorem DecodeRuneInString_cases (b : Nat) (rest : GoString) (hb : ¬ b < 0x80) :
    DecodeRuneInString (b :: rest) = (RuneError, 1) ∨
    (∃ s1 t, rest = s1 :: t ∧ 0xC2 ≤ b ∧ b < 0xE0 ∧ 0x80 ≤ s1 ∧ s1 ≤ 0xBF ∧
      DecodeRuneInString (b :: rest) = ((b % 0x20) * 0x40 + s1 % 0x40, 2)) ∨
    (∃ s1 s2 t, rest = s1 :: s2 :: t ∧ 0xE0 ≤ b ∧ b < 0xF0 ∧ 0x80 ≤ s1 ∧ s1 ≤ 0xBF ∧
      (b = 0xE0 → 0xA0 ≤ s1) ∧ (b = 0xED → s1 ≤ 0x9F) ∧ 0x80 ≤ s2 ∧ s2 ≤ 0xBF ∧
      DecodeRuneInString (b :: rest)
        = ((b % 0x10) * 0x1000 + (s1 % 0x40) * 0x40 + s2 % 0x40, 3)) ∨
    (∃ s1 s2 s3 t, rest = s1 :: s2 :: s3 :: t ∧ 0xF0 ≤ b ∧ b ≤ 0xF4 ∧ 0x80 ≤ s1 ∧ s1 ≤ 0xBF ∧
      (b = 0xF0 → 0x90 ≤ s1) ∧ (b = 0xF4 → s1 ≤ 0x8F) ∧ 0x80 ≤ s2 ∧ s2 ≤ 0xBF ∧
      0x80 ≤ s3 ∧ s3 ≤ 0xBF ∧
      DecodeRuneInString (b :: rest)
        = ((b % 0x08) * 0x40000 + (s1 % 0x40) * 0x1000 + (s2 % 0x40) * 0x40 + s3 % 0x40, 4)) := by
  unfold DecodeRuneInString
  simp only [RuneSelf, hb, if_false]
  cases hf : first b with
  | none => exact Or.inl rfl
  | some p =>
    obtain ⟨sz, lo, hi⟩ := p
    simp only []
    rcases first_cases b sz lo hi hf with ⟨rfl, h1, h2, rfl, rfl⟩ | ⟨rfl, h1, h2, h3, h4, h5, h6⟩ |
      ⟨rfl, h1, h2, h3, h4, h5, h6⟩
    · -- two bytes
      rcases rest with _ | ⟨s1, t⟩
      · exact Or.inl (by simp)
      · by_cases hs : s1 < 0x80 ∨ 0xBF < s1
        · exact Or.inl (by simp [hs])
        · refine Or.inr (Or.inl ⟨s1, t, rfl, h1, h2, by omega, by omega, ?_⟩)
          simp [hs]
    · -- three bytes
      rcases rest with _ | ⟨s1, _ | ⟨s2, t⟩⟩
      · exact Or.inl (by simp)
      · exact Or.inl (by simp)
      · by_cases hs : s1 < lo ∨ hi < s1
        · exact Or.inl (by simp [hs])
        · by_cases hc : isCont s2 = true
          · have hc2 := (isCont_iff s2).mp hc
            refine Or.inr (Or.inr (Or.inl ⟨s1, s2, t, rfl, h1, h2, by omega, by omega,
              by omega, by omega, hc2.1, hc2.2, ?_⟩))
            simp [hs, hc]
          · exact Or.inl (by simp [hs, hc])
    · -- four bytes
      rcases rest with _ | ⟨s1, _ | ⟨s2, _ | ⟨s3, t⟩⟩⟩
      · exact Or.inl (by simp)
      · exact Or.inl (by simp)
      · exact Or.inl (by simp)
      · by_cases hs : s1 < lo ∨ hi < s1
        · exact Or.inl (by simp [hs])
        · by_cases hc : isCont s2 = true
          · by_cases hd : isCont s3 = true
            · have hc2 := (isCont_iff s2).mp hc
              have hd2 := (isCont_iff s3).mp hd
              refine Or.inr (Or.inr (Or.inr ⟨s1, s2, s3, t, rfl, h1, h2, by omega, by omega,
                by omega, by omega, hc2.1, hc2.2, hd2.1, hd2.2, ?_⟩))
              simp [hs, hc, hd]
            · exact Or.inl (by simp [hs, hc, hd])
          · exact Or.inl (by simp [hs, hc])

/-- `appendString` hands `DecodeRuneInString` at most `UTFMax` bytes; the rune
decoded is that of the whole remaining string. -/
theorem DecodeRuneInString_take (s : GoString) :
    DecodeRuneInString (s.take UTFMax) = DecodeRuneInString s := by
  rcases s with _ | ⟨b, _ | ⟨s1, _ | ⟨s2, _ | ⟨s3, t⟩⟩⟩⟩
  · rfl
  · rfl
  · rfl
  · rfl
  · simp only [UTFMax, List.take_succ_cons, List.take_zero]
    unfold DecodeRuneInString
    by_cases hb : b < RuneSelf
    · simp [hb]
    · simp only [hb, if_false]
      cases hf : first b with
      | none => rfl
      | some p =>
        obtain ⟨sz, lo, hi⟩ := p
        have hsz : sz ≤ 4 := by
          rcases first_cases b sz lo hi hf with h | h | h <;> omega
        have h1 : ¬ ([b, s1, s2, s3].length < sz) := by simp; omega
        have h2 : ¬ ((b :: s1 :: s2 :: s3 :: t).length < sz) := by simp; omega
        simp only [h1, h2, if_false]

theorem appendStringLoop_ascii (fuel b : Nat) (rest : GoString) (hb : b < 0x80) :
    appendStringLoop (fuel + 1) (b :: rest)
      = if htmlSafeSet b then b :: appendStringLoop fuel rest
        else escapeByte b ++ appendStringLoop fuel rest := by
  simp [appendStringLoop, RuneSelf, hb]

theorem appendStringLoop_multibyte (fuel b : Nat) (rest : GoString) (c size : Nat)
    (hb : ¬ b < 0x80) (hd : DecodeRuneInString (b :: rest) = (c, size)) :
    appendStringLoop (fuel + 1) (b :: rest)
      = if c = RuneError ∧ size = 1 then
          replacementBytes ++ appendStringLoop fuel rest
        else if c = 0x2028 ∨ c = 0x2029 then
          ascii "\\u202" ++ [hex (c % 16)] ++ appendStringLoop fuel ((b :: rest).drop size)
        else
          (b :: rest).take size ++ appendStringLoop fuel ((b :: rest).drop size) := by
  simp only [appendStringLoop, RuneSelf, hb, if_false, DecodeRuneInString_take, hd]

theorem validStringLoop_ascii (fuel b : Nat) (rest : GoString) (hb : b < 0x80) :
    validStringLoop (fuel + 1) (b :: rest) = validStringLoop fuel rest := by
  simp [validStringLoop, RuneSelf, hb]

theorem validStringLoop_multibyte (fuel b : Nat) (rest : GoString) (c size : Nat)
    (hb : ¬ b < 0x80) (hd : DecodeRuneInString (b :: rest) = (c, size)) :
    validStringLoop (fuel + 1) (b :: rest)
      = if c = RuneError ∧ size = 1 then false
        else validStringLoop fuel ((b :: rest).drop size) := by
  simp only [validStringLoop, RuneSelf, hb, if_false, hd]

/-- A rune that decodes without error is at least one byte wide. -/
theorem DecodeRuneInString_size_pos (b : Nat) (rest : GoString) (hb : ¬ b < 0x80) (c size : Nat)
    (hd : DecodeRuneInString (b :: rest) = (c, size)) : 1 ≤ size := by
  rcases DecodeRuneInString_cases b rest hb with h | ⟨_, _, _, _, _, _, _, h⟩ |
    ⟨_, _, _, _, _, _, _, _, _, _, _, _, h⟩ |
    ⟨_, _, _, _, _, _, _, _, _, _, _, _, _, _, _, h⟩ <;>
  · rw [h] at hd
    simp only [Prod.mk.injEq] at hd
    omega

/-- The length of the string is fuel enough for `appendStringLoop`: more fuel
does not change what the loop writes. -/
theorem appendStringLoop_fuel (n : Nat) :
    ∀ (s : GoString) (m : Nat), s.length ≤ n → s.length ≤ m →
      appendStringLoop n s = appendStringLoop m s := by
  induction n with
  | zero =>
    intro s m hn _
    have hs : s = [] := List.length_eq_zero.mp (by omega)
    subst hs
    cases m <;> rfl
  | succ n ih =>
    intro s m hn hm
    cases s with
    | nil => cases m <;> rfl
    | cons b rest =>
      obtain ⟨m, rfl⟩ : ∃ m1, m = m1 + 1 := ⟨m - 1, by simp at hm; omega⟩
      simp only [List.length_cons] at hn hm
      by_cases hb : b < 0x80
      · rw [appendStringLoop_ascii n b rest hb, appendStringLoop_ascii m b rest hb,
          ih rest m (by omega) (by omega)]
      · cases hd : DecodeRuneInString (b :: rest) with
        | mk c size =>
          have hpos := DecodeRuneInString_size_pos b rest hb c size hd
          have hdrop : ((b :: rest).drop size).length ≤ rest.length := by
            simp only [List.length_drop, List.length_cons]; omega
          rw [appendStringLoop_multibyte n b rest c size hb hd,
            appendStringLoop_multibyte m b rest c size hb hd,
            ih rest m (by omega) (by omega),
            ih ((b :: rest).drop size) m (by omega) (by omega)]

/-! ## Lemmas: reading back what the encoder writes -/

theorem prepend_some (bs s X : GoString) : prepend bs (some (s, X)) = some (bs ++ s, X) := rfl

theorem prepend_nil (r : Option (GoString × GoString)) : prepend [] r = r := by
  cases r <;> rfl

theorem prepend_prepend (as bs : GoString) (r : Option (GoString × GoString)) :
    prepend as (prepend bs r) = prepend (as ++ bs) r := by
  cases r <;> simp [prepend]

theorem parseStringLoop_quote (k : Nat) (X : GoString) :
    parseStringLoop (k + 1) (0x22 :: X) = some ([], X) := by
  simp [parseStringLoop]

theorem parseStringLoop_raw (k c : Nat) (X : GoString) (h1 : c ≠ 0x22) (h2 : c ≠ 0x5C)
    (h3 : 0x20 ≤ c) :
    parseStringLoop (k + 1) (c :: X) = prepend [c] (parseStringLoop k X) := by
  have h4 : ¬ c < 0x20 := by omega
  simp [parseStringLoop, h1, h2, h4]

theorem parseStringLoop_escape (k : Nat) (esc bs X : GoString)
    (h : readEscape (esc ++ X) = some (bs, X)) :
    parseStringLoop (k + 1) (0x5C :: (esc ++ X)) = prepend bs (parseStringLoop k X) := by
  simp [parseStringLoop, h]

theorem readEscape_simple (e b : Nat) (X : GoString) (he : e ≠ 0x75)
    (hs : simpleEscape e = some b) : readEscape ([e] ++ X) = some ([b], X) := by
  simp [readEscape, he, hs]

theorem readEscape_u (h1 h2 h3 h4 u : Nat) (X : GoString)
    (hu : hex4 h1 h2 h3 h4 = some u) (hns : u < 0xD800 ∨ 0xE000 ≤ u) :
    readEscape ([0x75, h1, h2, h3, h4] ++ X) = some (encodeRune u, X) := by
  simp [readEscape, readUnicodeEscape, hu, hns]

theorem hexVal_hex (k : Nat) (hk : k < 16) : hexVal (hex k) = some k := by
  revert k
  decide

/-- Reading back what `appendString` writes for an ASCII byte it escapes. -/
theorem parseStringLoop_escapeByte (k b : Nat) (X : GoString) (hb : b < 0x80) :
    parseStringLoop (k + 1) (escapeByte b ++ X) = prepend [b] (parseStringLoop k X) := by
  unfold escapeByte
  split_ifs with h1 h2 h3 h4 h5 h6
  · rcases h1 with rfl | rfl
    · exact parseStringLoop_escape k [0x5C] _ X (readEscape_simple _ _ X (by decide) (by decide))
    · exact parseStringLoop_escape k [0x22] _ X (readEscape_simple _ _ X (by decide) (by decide))
  · exact parseStringLoop_escape k [0x62] _ X
      (h2 ▸ readEscape_simple _ _ X (by decide) (by decide))
  · exact parseStringLoop_escape k [0x66] _ X
      (h3 ▸ readEscape_simple _ _ X (by decide) (by decide))
  · exact parseStringLoop_escape k [0x6E] _ X
      (h4 ▸ readEscape_simple _ _ X (by decide) (by decide))
  · exact parseStringLoop_escape k [0x72] _ X
      (h5 ▸ readEscape_simple _ _ X (by decide) (by decide))
  · exact parseStringLoop_escape k [0x74] _ X
      (h6 ▸ readEscape_simple _ _ X (by decide) (by decide))
  · have hq : hex4 0x30 0x30 (hex (b / 16)) (hex (b % 16)) = some b := by
      have e1 := hexVal_hex (b / 16) (by omega)
      have e2 := hexVal_hex (b % 16) (by omega)
      have e0 : hexVal 0x30 = some 0 := by decide
      simp only [hex4, e0, e1, e2, Option.some.injEq]
      omega
    have hr := readEscape_u 0x30 0x30 (hex (b / 16)) (hex (b % 16)) b X hq (by omega)
    have he : encodeRune b = [b] := by simp [encodeRune, hb]
    rw [he] at hr
    exact parseStringLoop_escape k [0x75, 0x30, 0x30, hex (b / 16), hex (b % 16)] _ X hr

theorem escapeByte_length_pos (b : Nat) : 0 < (escapeByte b).length := by
  unfold escapeByte
  split_ifs <;> simp

theorem htmlSafeSet_raw (b : Nat) (h : htmlSafeSet b = true) :
    b ≠ 0x22 ∧ b ≠ 0x5C ∧ 0x20 ≤ b := by
  simp only [htmlSafeSet, Bool.and_eq_true, decide_eq_true_eq, bne_iff_ne, ne_eq] at h
  omega

theorem parseStringLoop_raw_append (bs : GoString) (h : ∀ x ∈ bs, 0x80 ≤ x) (k : Nat)
    (X : GoString) :
    parseStringLoop (k + bs.length) (bs ++ X) = prepend bs (parseStringLoop k X) := by
  induction bs with
  | nil => simp [prepend_nil]
  | cons x bs ih =>
    have hx := h x (List.mem_cons_self x bs)
    have hl : k + (x :: bs).length = (k + bs.length) + 1 := by simp; omega
    rw [hl, List.cons_append, parseStringLoop_raw _ x _ (by omega) (by omega) (by omega),
      ih (fun y hy => h y (List.mem_cons_of_mem x hy)), prepend_prepend]
    rfl

/-- One step of the round trip for a rune that `appendString` copies as it is. -/
theorem parseStringLoop_copy (bs t out X : GoString) (k : Nat) (h : ∀ x ∈ bs, 0x80 ≤ x)
    (hk : bs.length + out.length < k)
    (ih : ∀ k1, out.length < k1 → parseStringLoop k1 (out ++ 0x22 :: X) = some (t, X)) :
    parseStringLoop k (bs ++ out ++ 0x22 :: X) = some (bs ++ t, X) := by
  obtain ⟨k1, rfl⟩ : ∃ k1, k = k1 + bs.length := ⟨k - bs.length, by omega⟩
  rw [List.append_assoc, parseStringLoop_raw_append bs h k1, ih k1 (by omega), prepend_some]

/-- One step of the round trip for U+2028 and U+2029, which `appendString` escapes. -/
theorem parseStringLoop_separator (d : Nat) (hd : d = 8 ∨ d = 9) (t out X : GoString) (k : Nat)
    (hk : out.length < k)
    (ih : ∀ k1, out.length < k1 → parseStringLoop k1 (out ++ 0x22 :: X) = some (t, X)) :
    parseStringLoop (k + 1) (ascii "\\u202" ++ [hex d] ++ out ++ 0x22 :: X)
      = some (0xE2 :: 0x80 :: (0xA0 + d) :: t, X) := by
  have hesc : ascii "\\u202" ++ [hex d] = 0x5C :: [0x75, 0x32, 0x30, 0x32, hex d] := by
    rcases hd with rfl | rfl <;> decide
  have hread : readEscape ([0x75, 0x32, 0x30, 0x32, hex d] ++ (out ++ 0x22 :: X))
      = some ([0xE2, 0x80, 0xA0 + d], out ++ 0x22 :: X) := by
    rcases hd with rfl | rfl
    · exact readEscape_u 0x32 0x30 0x32 (hex 8) 0x2028 _ (by decide) (by decide)
    · exact readEscape_u 0x32 0x30 0x32 (hex 9) 0x2029 _ (by decide) (by decide)
  rw [hesc, List.append_assoc, List.cons_append,
    parseStringLoop_escape k _ _ _ hread, ih k hk, prepend_some]
  rfl

theorem roundTrip_ascii (fuel : Nat) (ih : RoundTripAt fuel) (b : Nat) (rest X : GoString)
    (k : Nat) (hb : b < 0x80) (hv : validStringLoop (fuel + 1) (b :: rest) = true)
    (hk : (appendStringLoop (fuel + 1) (b :: rest)).length < k + 1) :
    parseStringLoop (k + 1) (appendStringLoop (fuel + 1) (b :: rest) ++ 0x22 :: X)
      = some (b :: rest, X) := by
  rw [validStringLoop_ascii fuel b rest hb] at hv
  rw [appendStringLoop_ascii fuel b rest hb] at hk ⊢
  by_cases hsafe : htmlSafeSet b = true
  · simp only [hsafe, if_true, List.length_cons] at hk ⊢
    obtain ⟨h1, h2, h3⟩ := htmlSafeSet_raw b hsafe
    rw [List.cons_append, parseStringLoop_raw k b _ h1 h2 h3,
      ih rest X k hv (by omega), prepend_some]
    rfl
  · have hsf : htmlSafeSet b = false := by simpa using hsafe
    simp only [hsf, Bool.false_eq_true, if_false, List.length_append] at hk ⊢
    have hpos := escapeByte_length_pos b
    rw [List.append_assoc, parseStringLoop_escapeByte k b _ hb,
      ih rest X k hv (by omega), prepend_some]
    rfl

theorem roundTrip_two (fuel : Nat) (ih : RoundTripAt fuel) (b s1 : Nat) (t X : GoString)
    (k : Nat) (hb : ¬ b < 0x80) (h1 : 0xC2 ≤ b) (h2 : b < 0xE0) (h3 : 0x80 ≤ s1)
    (hd : DecodeRuneInString (b :: s1 :: t) = (b % 0x20 * 0x40 + s1 % 0x40, 2))
    (hv : validStringLoop (fuel + 1) (b :: s1 :: t) = true)
    (hk : (appendStringLoop (fuel + 1) (b :: s1 :: t)).length < k + 1) :
    parseStringLoop (k + 1) (appendStringLoop (fuel + 1) (b :: s1 :: t) ++ 0x22 :: X)
      = some (b :: s1 :: t, X) := by
  rw [validStringLoop_multibyte fuel b _ _ _ hb hd] at hv
  rw [appendStringLoop_multibyte fuel b _ _ _ hb hd] at hk ⊢
  have hx : b % 0x20 < 0x20 := Nat.mod_lt _ (by decide)
  have hy : s1 % 0x40 < 0x40 := Nat.mod_lt _ (by decide)
  generalize b % 0x20 = x at hx hv hk ⊢
  generalize s1 % 0x40 = y at hy hv hk ⊢
  have hne : ¬ (x * 0x40 + y = RuneError ∧ 2 = 1) := by omega
  have hsep : ¬ (x * 0x40 + y = 0x2028 ∨ x * 0x40 + y = 0x2029) := by omega
  simp only [hne, hsep, if_false, List.take_succ_cons, List.take_zero,
    List.drop_succ_cons, List.drop_zero] at hv hk ⊢
  refine parseStringLoop_copy [b, s1] t _ X (k + 1) ?_
    (by simp only [List.length_cons, List.length_nil, List.length_append] at hk ⊢; omega)
    (fun k1 hk1 => ih t X k1 hv hk1)
  intro z hz
  simp only [List.mem_cons, List.mem_singleton, List.not_mem_nil, or_false] at hz
  omega

theorem roundTrip_three (fuel : Nat) (ih : RoundTripAt fuel) (b s1 s2 : Nat) (t X : GoString)
    (k : Nat) (hb : ¬ b < 0x80) (h1 : 0xE0 ≤ b) (h2 : b < 0xF0) (h3 : 0x80 ≤ s1)
    (h4 : s1 ≤ 0xBF) (h7 : 0x80 ≤ s2) (h8 : s2 ≤ 0xBF)
    (hd : DecodeRuneInString (b :: s1 :: s2 :: t)
      = (b % 0x10 * 0x1000 + s1 % 0x40 * 0x40 + s2 % 0x40, 3))
    (hv : validStringLoop (fuel + 1) (b :: s1 :: s2 :: t) = true)
    (hk : (appendStringLoop (fuel + 1) (b :: s1 :: s2 :: t)).length < k + 1) :
    parseStringLoop (k + 1) (appendStringLoop (fuel + 1) (b :: s1 :: s2 :: t) ++ 0x22 :: X)
      = some (b :: s1 :: s2 :: t, X) := by
  rw [validStringLoop_multibyte fuel b _ _ _ hb hd] at hv
  rw [appendStringLoop_multibyte fuel b _ _ _ hb hd] at hk ⊢
  have hx : b % 0x10 = b - 0xE0 := by omega
  have hy : s1 % 0x40 = s1 - 0x80 := by omega
  have hz : s2 % 0x40 = s2 - 0x80 := by omega
  rw [hx, hy, hz] at hv hk ⊢
  have hne : ¬ ((b - 0xE0) * 0x1000 + (s1 - 0x80) * 0x40 + (s2 - 0x80) = RuneError ∧ 3 = 1) := by
    omega
  simp only [hne, if_false, List.take_succ_cons, List.take_zero,
    List.drop_succ_cons, List.drop_zero] at hv hk ⊢
  by_cases hsep : (b - 0xE0) * 0x1000 + (s1 - 0x80) * 0x40 + (s2 - 0x80) = 0x2028 ∨
      (b - 0xE0) * 0x1000 + (s1 - 0x80) * 0x40 + (s2 - 0x80) = 0x2029
  · have h5 : (ascii "\\u202").length = 5 := by decide
    simp only [hsep, if_true, List.length_append, h5, List.length_singleton] at hk ⊢
    have hb2 : b = 0xE2 := by omega
    have hs1 : s1 = 0x80 := by omega
    have hs2 : s2 = 0xA8 ∨ s2 = 0xA9 := by omega
    subst hb2 hs1
    rcases hs2 with rfl | rfl
    · exact parseStringLoop_separator 8 (Or.inl rfl) t _ X k (by omega)
        (fun k1 hk1 => ih t X k1 hv hk1)
    · exact parseStringLoop_separator 9 (Or.inr rfl) t _ X k (by omega)
        (fun k1 hk1 => ih t X k1 hv hk1)
  · simp only [hsep, if_false] at hk ⊢
    refine parseStringLoop_copy [b, s1, s2] t _ X (k + 1) ?_
      (by simp only [List.length_cons, List.length_nil, List.length_append] at hk ⊢; omega)
      (fun k1 hk1 => ih t X k1 hv hk1)
    intro z hz
    simp only [List.mem_cons, List.mem_singleton, List.not_mem_nil, or_false] at hz
    omega

theorem roundTrip_four (fuel : Nat) (ih : RoundTripAt fuel) (b s1 s2 s3 : Nat) (t X : GoString)
    (k : Nat) (hb : ¬ b < 0x80) (h1 : 0xF0 ≤ b) (h2 : b ≤ 0xF4) (h3 : 0x80 ≤ s1)
    (h4 : s1 ≤ 0xBF) (h5 : b = 0xF0 → 0x90 ≤ s1) (h7 : 0x80 ≤ s2) (h9 : 0x80 ≤ s3)
    (hd : DecodeRuneInString (b :: s1 :: s2 :: s3 :: t)
      = (b % 0x08 * 0x40000 + s1 % 0x40 * 0x1000 + s2 % 0x40 * 0x40 + s3 % 0x40, 4))
    (hv : validStringLoop (fuel + 1) (b :: s1 :: s2 :: s3 :: t) = true)
    (hk : (appendStringLoop (fuel + 1) (b :: s1 :: s2 :: s3 :: t)).length < k + 1) :
    parseStringLoop (k + 1) (appendStringLoop (fuel + 1) (b :: s1 :: s2 :: s3 :: t) ++ 0x22 :: X)
      = some (b :: s1 :: s2 :: s3 :: t, X) := by
  rw [validStringLoop_multibyte fuel b _ _ _ hb hd] at hv
  rw [appendStringLoop_multibyte fuel b _ _ _ hb hd] at hk ⊢
  have hx : b % 0x08 = b - 0xF0 := by omega
  have hy : s1 % 0x40 = s1 - 0x80 := by omega
  rw [hx, hy] at hv hk ⊢
  generalize s2 % 0x40 = z at hv hk ⊢
  generalize s3 % 0x40 = w at hv hk ⊢
  have hge : 0x10000 ≤ (b - 0xF0) * 0x40000 + (s1 - 0x80) * 0x1000 + z * 0x40 + w := by omega
  have hne : ¬ ((b - 0xF0) * 0x40000 + (s1 - 0x80) * 0x1000 + z * 0x40 + w = RuneError
      ∧ 4 = 1) := by omega
  have hsep : ¬ ((b - 0xF0) * 0x40000 + (s1 - 0x80) * 0x1000 + z * 0x40 + w = 0x2028 ∨
      (b - 0xF0) * 0x40000 + (s1 - 0x80) * 0x1000 + z * 0x40 + w = 0x2029) := by omega
  simp only [hne, hsep, if_false, List.take_succ_cons, List.take_zero,
    List.drop_succ_cons, List.drop_zero] at hv hk ⊢
  refine parseStringLoop_copy [b, s1, s2, s3] t _ X (k + 1) ?_
    (by simp only [List.length_cons, List.length_nil, List.length_append] at hk ⊢; omega)
    (fun k1 hk1 => ih t X k1 hv hk1)
  intro v hv1
  simp only [List.mem_cons, List.mem_singleton, List.not_mem_nil, or_false] at hv1
  omega

/-- Reading back the body of the string literal `appendString` writes for a
valid UTF-8 string gives the string. -/
theorem parseStringLoop_appendStringLoop (fuel : Nat) : RoundTripAt fuel := by
  induction fuel with
  | zero =>
    intro s X k hv hk
    cases s with
    | nil =>
      obtain ⟨k, rfl⟩ : ∃ k1, k = k1 + 1 := ⟨k - 1, by omega⟩
      simp [appendStringLoop, parseStringLoop_quote]
    | cons b rest => simp [validStringLoop] at hv
  | succ fuel ih =>
    intro s X k hv hk
    cases s with
    | nil =>
      obtain ⟨k, rfl⟩ : ∃ k1, k = k1 + 1 := ⟨k - 1, by omega⟩
      simp [appendStringLoop, parseStringLoop_quote]
    | cons b rest =>
      obtain ⟨k, rfl⟩ : ∃ k1, k = k1 + 1 := ⟨k - 1, by omega⟩
      by_cases hb : b < 0x80
      · exact roundTrip_ascii fuel ih b rest X k hb hv hk
      · rcases DecodeRuneInString_cases b rest hb with hd | ⟨s1, t, rfl, h1, h2, h3, _, hd⟩ |
          ⟨s1, s2, t, rfl, h1, h2, h3, h4, _, _, h7, h8, hd⟩ |
          ⟨s1, s2, s3, t, rfl, h1, h2, h3, h4, h5, _, h7, _, h9, _, hd⟩
        · rw [validStringLoop_multibyte fuel b rest _ _ hb hd] at hv
          simp at hv
        · exact roundTrip_two fuel ih b s1 t X k hb h1 h2 h3 hd hv hk
        · exact roundTrip_three fuel ih b s1 s2 t X k hb h1 h2 h3 h4 h7 h8 hd hv hk
        · exact roundTrip_four fuel ih b s1 s2 s3 t X k hb h1 h2 h3 h4 h5 h7 h9 hd hv hk

theorem parseStringBody_appendStringLoop (s X : GoString) (hv : ValidString s = true) :
    parseStringBody (appendStringLoop s.length s ++ 0x22 :: X) = some (s, X) := by
  unfold parseStringBody
  exact parseStringLoop_appendStringLoop s.length s X _ hv (by simp)

theorem marshalIPResponse_eq (s : GoString) :
    marshalIPResponse { IP := s } ++ [0x0A]
      = 0x7B :: 0x22 :: 0x69 :: 0x70 :: 0x22 :: 0x3A :: 0x22 ::
          (appendStringLoop s.length s ++ 0x22 :: [0x7D, 0x0A]) := by
  have h1 : ascii "\x7b\"ip\":" = [0x7B, 0x22, 0x69, 0x70, 0x22, 0x3A] := by decide
  have h2 : ascii "\x7d" = [0x7D] := by decide
  simp [marshalIPResponse, appendString, h1, h2]

theorem parseStringBody_key (X : GoString) :
    parseStringBody (0x69 :: 0x70 :: 0x22 :: X) = some ([0x69, 0x70], X) := by
  simp [parseStringBody, parseStringLoop, prepend]

/-- A document `{"ip":"…"}` followed by a newline reads as the object with the
one member `ip` whose value is what the string literal reads as. -/
theorem parseObject_ip (enc s : GoString)
    (h : parseStringBody (enc ++ 0x22 :: [0x7D, 0x0A]) = some (s, [0x7D, 0x0A])) :
    parseObject (0x7B :: 0x22 :: 0x69 :: 0x70 :: 0x22 :: 0x3A :: 0x22 ::
        (enc ++ 0x22 :: [0x7D, 0x0A])) = some [([0x69, 0x70], s)] := by
  simp [parseObject, expect, skipWs, isWs, parseMembers, parseMember, parseStringBody_key, h]

/-! ## The claims -/

/-- C7: whenever `http.Get` and the body read succeed, `getPublicIP` returns the
body `b` exactly as received together with a nil error, for every status code;
two responses with different status codes and the same body give the same
result. -/
theorem getPublicIP_returns_body_as_received :
    (∀ (statusCode : Nat) (b : GoString), getPublicIP (.body statusCode b) = (b, none)) ∧
    (∀ (statusCode statusCode1 : Nat) (b : GoString),
      getPublicIP (.body statusCode b) = getPublicIP (.body statusCode1 b)) :=
  ⟨fun _ _ => rfl, fun _ _ _ => rfl⟩

/-- C10: on the body `1.2.3.4` followed by a newline, `getPublicIP` returns the
body with its newline (byte `0x0A`): it does not return the trimmed `1.2.3.4`
that its comment announces. -/
theorem getPublicIP_keeps_newline :
    getPublicIP (.body 200 (ascii "1.2.3.4\n")) = (ascii "1.2.3.4\n", none) ∧
    0x0A ∈ (getPublicIP (.body 200 (ascii "1.2.3.4\n"))).1 ∧
    (getPublicIP (.body 200 (ascii "1.2.3.4\n"))).1 ≠ ascii "1.2.3.4" := by
  decide

/-- C5: an iteration of `refreshIP` whose probe returns an error leaves the state
unchanged; hence after a successful probe with body `s` and then any events none
of which is a successful probe, `currentIP` is still `s` and `ipHandler` answers
as it does on the cache holding `s`: for a non-empty `s`, with status 200 and the
encoding of `s`. -/
theorem failure_preservation (es : List Event) (h : ∀ e ∈ es, e.isProbeSuccess = false)
    (st : State) (statusCode : Nat) (s : GoString) (r : Request) :
    (∀ u, (getPublicIP u).2.isNone = false → refreshIP st u = st) ∧
    (runState (refreshIP st (.body statusCode s)) es).currentIP = s ∧
    ipHandler (runState (refreshIP st (.body statusCode s)) es) r
      = ipHandler { currentIP := s } r ∧
    (s ≠ [] →
      (ipHandler (runState (refreshIP st (.body statusCode s)) es) r).status = StatusOK ∧
      (ipHandler (runState (refreshIP st (.body statusCode s)) es) r).body
        = marshalIPResponse { IP := s } ++ [0x0A]) := by
  have hrun := runState_of_no_success es (refreshIP st (.body statusCode s)) h
  rw [hrun, refreshIP_body]
  refine ⟨fun u hu => refreshIP_of_error st u hu, rfl, rfl, fun hs => ?_⟩
  rw [ipHandler_nonempty s hs]
  exact ⟨rfl, rfl⟩

theorem failure_preservation_witness :
    (∀ e ∈ [Event.probe (.getError ⟨"timeout"⟩), Event.probe (.readError 200 ⟨"EOF"⟩)],
        e.isProbeSuccess = false) ∧
    (runState (refreshIP State.init (.body 200 (ascii "1.2.3.4")))
        [Event.probe (.getError ⟨"timeout"⟩), Event.probe (.readError 200 ⟨"EOF"⟩)]).currentIP
      = ascii "1.2.3.4" :=
  ⟨by decide,
   (failure_preservation [Event.probe (.getError ⟨"timeout"⟩), Event.probe (.readError 200 ⟨"EOF"⟩)]
      (by decide) State.init 200 (ascii "1.2.3.4") ⟨"GET", "/"⟩).2.1⟩

/-- C8: `ipHandler` leaves the state as it is and its response does not depend on
the request; so two responses separated by events none of which is a successful
probe are equal: same status, same header fields, same body bytes. -/
theorem repeat_reads_identical (es : List Event) (h : ∀ e ∈ es, e.isProbeSuccess = false)
    (st : State) (r1 r2 : Request) :
    (step st (.request r1)).1 = st ∧
    ipHandler st r1 = ipHandler st r2 ∧
    ipHandler (runState (step st (.request r1)).1 es) r2 = ipHandler st r1 ∧
    (ipHandler (runState (step st (.request r1)).1 es) r2).status = (ipHandler st r1).status ∧
    (ipHandler (runState (step st (.request r1)).1 es) r2).body = (ipHandler st r1).body := by
  have hst : (step st (.request r1)).1 = st := rfl
  have hrun := runState_of_no_success es st h
  rw [hst, hrun]
  exact ⟨rfl, rfl, rfl, rfl, rfl⟩

theorem repeat_reads_identical_witness :
    (∀ e ∈ [Event.request ⟨"POST", "/other"⟩, Event.probe (.getError ⟨"timeout"⟩)],
        e.isProbeSuccess = false) ∧
    ipHandler (runState (step ⟨ascii "1.2.3.4\n"⟩ (.request ⟨"GET", "/"⟩)).1
        [Event.request ⟨"POST", "/other"⟩, Event.probe (.getError ⟨"timeout"⟩)]) ⟨"HEAD", "/x"⟩
      = ipHandler ⟨ascii "1.2.3.4\n"⟩ ⟨"GET", "/"⟩ :=
  ⟨by decide,
   (repeat_reads_identical [Event.request ⟨"POST", "/other"⟩, Event.probe (.getError ⟨"timeout"⟩)]
      (by decide) ⟨ascii "1.2.3.4\n"⟩ ⟨"GET", "/"⟩ ⟨"HEAD", "/x"⟩).2.2.1⟩

theorem appendStringLoop_of_safe (s : GoString) (hs : ∀ b ∈ s, htmlSafeSet b = true) :
    ∀ fuel, s.length ≤ fuel → appendStringLoop fuel s = s := by
  induction s with
  | nil => intro fuel _; cases fuel <;> rfl
  | cons b rest ih =>
    intro fuel hfuel
    cases fuel with
    | zero => simp at hfuel
    | succ fuel =>
      have hb : htmlSafeSet b = true := hs b (List.mem_cons_self b rest)
      have hlt : b < RuneSelf := by
        simp only [htmlSafeSet, Bool.and_eq_true, decide_eq_true_eq] at hb
        exact hb.1.1.1.1.1.2
      have hrest := ih (fun x hx => hs x (List.mem_cons_of_mem b hx)) fuel
        (by simpa using hfuel)
      simp [appendStringLoop, hlt, hb, hrest]

/-- The statuses of the cold-start response and of the success response differ. -/
theorem httpError_ne_encoderEncode (msg : GoString) (header : List (String × String))
    (v : IPResponse) : httpError msg StatusServiceUnavailable ≠ encoderEncode header v := by
  intro h
  have := congrArg Response.status h
  simp [httpError, encoderEncode, StatusServiceUnavailable, StatusOK] at this

/-- C4, as stated, fails: in the initial state the body `ipHandler` writes with
status 503 is not exactly the message; it is the message followed by a newline. -/
theorem cold_start_body_not_exactly_message :
    (ipHandler State.init ⟨"GET", "/"⟩).status = 503 ∧
    (ipHandler State.init ⟨"GET", "/"⟩).body
      ≠ ascii "Public IP not yet available. Please try again later." ∧
    (ipHandler State.init ⟨"GET", "/"⟩).body
      = ascii "Public IP not yet available. Please try again later.\n" := by
  decide

/-- C4, amended: in the initial state and in every state reached from it by
events none of which is a successful probe, `ipHandler` responds with status 503,
`Content-Type` `text/plain; charset=utf-8` and a body that is exactly the message
`Public IP not yet available. Please try again later.` followed by one newline;
it is not the JSON success response; and every response sent on the way is this
same response. -/
theorem cold_start_contract (es : List Event) (h : ∀ e ∈ es, e.isProbeSuccess = false)
    (r : Request) :
    (ipHandler (runState State.init es) r).status = 503 ∧
    (ipHandler (runState State.init es) r).headerGet "Content-Type"
      = "text/plain; charset=utf-8" ∧
    (ipHandler (runState State.init es) r).body
      = ascii "Public IP not yet available. Please try again later." ++ [0x0A] ∧
    (∀ v, ipHandler (runState State.init es) r
      ≠ encoderEncode [("Content-Type", "application/json")] v) ∧
    (∀ w ∈ responses State.init es, w = ipHandler State.init r) := by
  have hrun := runState_of_no_success es State.init h
  have hinit : ipHandler State.init r
      = httpError notYetAvailable StatusServiceUnavailable := ipHandler_empty r
  rw [hrun, hinit]
  refine ⟨rfl, by decide, rfl, fun v => httpError_ne_encoderEncode _ _ v, ?_⟩
  refine responses_forall (fun st => st = State.init) _ es ?_ ?_ State.init rfl
  · intro st e he hst
    rw [step_of_not_success st e (h e he)]
    exact hst
  · intro st r1 hst
    rw [hst]
    exact ipHandler_empty r1

theorem cold_start_contract_witness :
    (∀ e ∈ [Event.probe (.getError ⟨"timeout"⟩), Event.request ⟨"GET", "/"⟩],
        e.isProbeSuccess = false) ∧
    (ipHandler (runState State.init
        [Event.probe (.getError ⟨"timeout"⟩), Event.request ⟨"GET", "/"⟩]) ⟨"GET", "/"⟩).status
      = 503 :=
  ⟨by decide,
   (cold_start_contract [Event.probe (.getError ⟨"timeout"⟩), Event.request ⟨"GET", "/"⟩]
      (by decide) ⟨"GET", "/"⟩).1⟩

/-- The success status is sent exactly when the cache is not the empty string. -/
theorem ipHandler_status_eq_ok_iff (st : State) (r : Request) :
    (ipHandler st r).status = StatusOK ↔ st.currentIP ≠ [] := by
  by_cases h : st.currentIP = []
  · simp [ipHandler, h, httpError, StatusServiceUnavailable, StatusOK]
  · simp [ipHandler, h, encoderEncode]

theorem step_keeps_nonempty (st : State) (e : Event) (he : e.isEmptyProbeSuccess = false)
    (hst : st.currentIP ≠ []) : (step st e).1.currentIP ≠ [] := by
  cases e with
  | request r => exact hst
  | probe u =>
    cases u with
    | getError err => simpa [step, refreshIP, getPublicIP] using hst
    | readError c err => simpa [step, refreshIP, getPublicIP] using hst
    | body c b =>
      simp only [Event.isEmptyProbeSuccess, getPublicIP, Option.isNone_none, Bool.true_and,
        beq_eq_false_iff_ne, ne_eq] at he
      simpa [step, refreshIP, getPublicIP] using he

/-- C1, as stated, fails: in the run "probe succeeds with `1.2.3.4`, request,
probe succeeds with the empty body, request" from the initial state, the first
response has status 200 and the later one 503, so the responses of a run are not
always 200 after the first 200. -/
theorem populated_not_monotonic :
    (responses State.init
      [.probe (.body 200 (ascii "1.2.3.4")), .request ⟨"GET", "/"⟩,
       .probe (.body 200 []), .request ⟨"GET", "/"⟩]).map Response.status = [200, 503] ∧
    ¬ ∀ es : List Event, (responses State.init es).Pairwise
        (fun w1 w2 => w1.status = 200 → w2.status = 200) := by
  refine ⟨by decide, fun hall => ?_⟩
  have h := hall [.probe (.body 200 (ascii "1.2.3.4")), .request ⟨"GET", "/"⟩,
       .probe (.body 200 []), .request ⟨"GET", "/"⟩]
  revert h
  decide

/-- C1, amended: once a response of `ipHandler` has status 200, every later
response of the run has status 200 as long as no successful probe after it
returns the empty body, whatever non-empty bodies the later successful probes
return. -/
theorem populated_monotonic_without_empty_body (st : State) (r : Request) (es : List Event)
    (h200 : (ipHandler st r).status = 200)
    (hes : ∀ e ∈ es, e.isEmptyProbeSuccess = false) :
    (∀ w ∈ responses st es, w.status = 200) ∧
    ∀ r1, (ipHandler (runState st es) r1).status = 200 := by
  have hst : st.currentIP ≠ [] := (ipHandler_status_eq_ok_iff st r).mp h200
  constructor
  · refine responses_forall (fun st1 => st1.currentIP ≠ []) _ es ?_ ?_ st hst
    · intro st1 e he h1
      exact step_keeps_nonempty st1 e (hes e he) h1
    · intro st1 r1 h1
      exact (ipHandler_status_eq_ok_iff st1 r1).mpr h1
  · intro r1
    refine (ipHandler_status_eq_ok_iff _ r1).mpr ?_
    clear h200
    induction es generalizing st with
    | nil => exact hst
    | cons e es ih =>
      exact ih (step st e).1 (fun e1 he1 => hes e1 (List.mem_cons_of_mem e he1))
        (step_keeps_nonempty st e (hes e (List.mem_cons_self e es)) hst)

theorem populated_monotonic_without_empty_body_witness :
    (ipHandler ⟨ascii "1.2.3.4"⟩ ⟨"GET", "/"⟩).status = 200 ∧
    (∀ e ∈ [Event.probe (.body 200 (ascii "5.6.7.8")), Event.probe (.getError ⟨"timeout"⟩),
            Event.request ⟨"GET", "/"⟩], e.isEmptyProbeSuccess = false) ∧
    (∀ w ∈ responses ⟨ascii "1.2.3.4"⟩
        [Event.probe (.body 200 (ascii "5.6.7.8")), Event.probe (.getError ⟨"timeout"⟩),
         Event.request ⟨"GET", "/"⟩], w.status = 200) :=
  ⟨by decide, by decide,
   (populated_monotonic_without_empty_body ⟨ascii "1.2.3.4"⟩ ⟨"GET", "/"⟩
      [Event.probe (.body 200 (ascii "5.6.7.8")), Event.probe (.getError ⟨"timeout"⟩),
       Event.request ⟨"GET", "/"⟩] (by decide) (by decide)).1⟩

/-- C2, as stated, fails: after a successful probe with the empty body on a cache
that held `1.2.3.4`, `ipHandler` answers with status 503 and the cold-start
message, not with status 200 and the body `{"ip":""}`. -/
theorem empty_body_gives_cold_start :
    (ipHandler (refreshIP ⟨ascii "1.2.3.4"⟩ (.body 200 [])) ⟨"GET", "/"⟩).status = 503 ∧
    (ipHandler (refreshIP ⟨ascii "1.2.3.4"⟩ (.body 200 [])) ⟨"GET", "/"⟩).body
      = ascii "Public IP not yet available. Please try again later.\n" ∧
    (ipHandler (refreshIP ⟨ascii "1.2.3.4"⟩ (.body 200 [])) ⟨"GET", "/"⟩).body
      ≠ ascii "\x7b\"ip\":\"\"\x7d" := by
  decide

/-- C2, amended: for every cache state, after an iteration of `refreshIP` whose
probe succeeds with the empty body, `currentIP` is the empty string, and every
response of `ipHandler` until the next successful probe is the 503 cold-start
response (the message followed by a newline), not a 200 response. -/
theorem empty_body_boundary (st : State) (statusCode : Nat) (es : List Event)
    (h : ∀ e ∈ es, e.isProbeSuccess = false) (r : Request) :
    (refreshIP st (.body statusCode [])).currentIP = [] ∧
    (∀ w ∈ responses (refreshIP st (.body statusCode [])) es,
      w = httpError notYetAvailable StatusServiceUnavailable) ∧
    ipHandler (runState (refreshIP st (.body statusCode [])) es) r
      = httpError notYetAvailable StatusServiceUnavailable ∧
    (ipHandler (runState (refreshIP st (.body statusCode [])) es) r).status = 503 ∧
    (ipHandler (runState (refreshIP st (.body statusCode [])) es) r).body
      = ascii "Public IP not yet available. Please try again later." ++ [0x0A] := by
  have hrun := runState_of_no_success es (refreshIP st (.body statusCode [])) h
  rw [hrun, refreshIP_body, ipHandler_empty]
  refine ⟨rfl, ?_, rfl, rfl, rfl⟩
  refine responses_forall (fun st1 => st1 = { currentIP := [] }) _ es ?_ ?_ _ rfl
  · intro st1 e he hst1
    rw [step_of_not_success st1 e (h e he)]
    exact hst1
  · intro st1 r1 hst1
    rw [hst1]
    exact ipHandler_empty r1

theorem empty_body_boundary_witness :
    (∀ e ∈ [Event.request ⟨"GET", "/"⟩, Event.probe (.getError ⟨"timeout"⟩)],
        e.isProbeSuccess = false) ∧
    (ipHandler (runState (refreshIP ⟨ascii "1.2.3.4"⟩ (.body 200 []))
        [Event.request ⟨"GET", "/"⟩, Event.probe (.getError ⟨"timeout"⟩)]) ⟨"GET", "/"⟩).status
      = 503 :=
  ⟨by decide,
   (empty_body_boundary ⟨ascii "1.2.3.4"⟩ 200
      [Event.request ⟨"GET", "/"⟩, Event.probe (.getError ⟨"timeout"⟩)] (by decide)
      ⟨"GET", "/"⟩).2.2.2.1⟩

/-- C3, as stated, fails: for the cached value `1.2.3.4` followed by a newline,
the body is `{"ip":"1.2.3.4\n"}` with the newline of the value escaped as the two
characters backslash and `n`, and with a newline appended after the closing
brace; it is not `{"ip":"` followed by the value verbatim and `"}`. -/
theorem success_body_not_verbatim :
    (ipHandler ⟨ascii "1.2.3.4\n"⟩ ⟨"GET", "/"⟩).body
      = ascii "\x7b\"ip\":\"1.2.3.4\\n\"\x7d\n" ∧
    (ipHandler ⟨ascii "1.2.3.4\n"⟩ ⟨"GET", "/"⟩).body
      ≠ ascii "\x7b\"ip\":\"" ++ ascii "1.2.3.4\n" ++ ascii "\"\x7d" := by
  decide

/-- C3, amended: for every non-empty cached value `v`, `ipHandler` responds with
status 200 and `Content-Type` `application/json`, and its body begins with
`{"ip":"` and ends with `"}` followed by one newline; when every byte of `v` is an
ASCII character from the space `0x20` to `0x7F` other than the double quote, the
backslash, `<`, `>` and `&`, the body is exactly `{"ip":"`, then `v` verbatim,
then `"}` and that newline. -/
theorem success_response (v : GoString) (hv : v ≠ []) (r : Request) :
    (ipHandler ⟨v⟩ r).status = 200 ∧
    (ipHandler ⟨v⟩ r).headerGet "Content-Type" = "application/json" ∧
    ascii "\x7b\"ip\":\"" <+: (ipHandler ⟨v⟩ r).body ∧
    ascii "\"\x7d\n" <:+ (ipHandler ⟨v⟩ r).body ∧
    ((∀ b ∈ v, htmlSafeSet b = true) →
      (ipHandler ⟨v⟩ r).body = ascii "\x7b\"ip\":\"" ++ v ++ ascii "\"\x7d" ++ [0x0A]) := by
  rw [ipHandler_nonempty v hv]
  have hbody : (encoderEncode [("Content-Type", "application/json")] { IP := v }).body
      = marshalIPResponse { IP := v } ++ [0x0A] := rfl
  have h1 : ascii "\x7b\"ip\":\"" = [0x7B, 0x22, 0x69, 0x70, 0x22, 0x3A, 0x22] := by decide
  have h2 : ascii "\"\x7d\n" = [0x22, 0x7D, 0x0A] := by decide
  have h3 : ascii "\"\x7d" = [0x22, 0x7D] := by decide
  rw [hbody, marshalIPResponse_eq v, h1, h2, h3]
  refine ⟨rfl, by simp [encoderEncode, Response.headerGet], ?_, ?_, fun hsafe => ?_⟩
  · exact ⟨appendStringLoop v.length v ++ [0x22, 0x7D, 0x0A], rfl⟩
  · exact ⟨[0x7B, 0x22, 0x69, 0x70, 0x22, 0x3A, 0x22] ++ appendStringLoop v.length v, by simp⟩
  · rw [appendStringLoop_of_safe v hsafe v.length (le_refl _)]
    simp

theorem success_response_witness :
    ascii "1.2.3.4" ≠ [] ∧ (∀ b ∈ ascii "1.2.3.4", htmlSafeSet b = true) ∧
    (ipHandler ⟨ascii "1.2.3.4"⟩ ⟨"GET", "/"⟩).body
      = ascii "\x7b\"ip\":\"" ++ ascii "1.2.3.4" ++ ascii "\"\x7d" ++ [0x0A] :=
  ⟨by decide, by decide,
   (success_response (ascii "1.2.3.4") (by decide) ⟨"GET", "/"⟩).2.2.2.2 (by decide)⟩

/-- C6, as stated, fails: the one-byte string `0xFF` is a non-empty Go string that
is not valid UTF-8; after a successful probe with that body the response body is
`{"ip":"`, the three bytes `EF BF BD` of U+FFFD, `"}` and a newline, which reads
as an object with the one key `ip` whose value is U+FFFD, not the string
cached. -/
theorem json_round_trip_fails_on_invalid_utf8 :
    (ipHandler (refreshIP State.init (.body 200 [0xFF])) ⟨"GET", "/"⟩).body
      = ascii "\x7b\"ip\":\"" ++ [0xEF, 0xBF, 0xBD] ++ ascii "\"\x7d\n" ∧
    parseObject (ipHandler (refreshIP State.init (.body 200 [0xFF])) ⟨"GET", "/"⟩).body
      = some [(ascii "ip", [0xEF, 0xBF, 0xBD])] ∧
    parseObject (ipHandler (refreshIP State.init (.body 200 [0xFF])) ⟨"GET", "/"⟩).body
      ≠ some [(ascii "ip", [0xFF])] := by
  decide

/-- C6, amended: for every non-empty string `s` that is valid UTF-8 (also one that
ends in a newline), after a successful probe with body `s` the response of
`ipHandler` has status 200 and its body reads as a JSON object with exactly one
member, whose key is `ip` and whose string value is exactly `s`. -/
theorem json_round_trip (st : State) (statusCode : Nat) (s : GoString) (hs : s ≠ [])
    (hvalid : ValidString s = true) (r : Request) :
    (ipHandler (refreshIP st (.body statusCode s)) r).status = 200 ∧
    parseObject (ipHandler (refreshIP st (.body statusCode s)) r).body
      = some [(ascii "ip", s)] := by
  rw [refreshIP_body, ipHandler_nonempty s hs]
  refine ⟨rfl, ?_⟩
  have hbody : (encoderEncode [("Content-Type", "application/json")] { IP := s }).body
      = marshalIPResponse { IP := s } ++ [0x0A] := rfl
  rw [hbody, marshalIPResponse_eq s]
  exact parseObject_ip _ s (parseStringBody_appendStringLoop s _ hvalid)

theorem json_round_trip_witness :
    ascii "1.2.3.4\n" ≠ [] ∧ ValidString (ascii "1.2.3.4\n") = true ∧
    parseObject (ipHandler (refreshIP State.init (.body 200 (ascii "1.2.3.4\n")))
        ⟨"GET", "/"⟩).body = some [(ascii "ip", ascii "1.2.3.4\n")] :=
  ⟨by decide, by decide,
   (json_round_trip State.init 200 (ascii "1.2.3.4\n") (by decide) (by decide)
      ⟨"GET", "/"⟩).2⟩

end IPServer
